import Mathlib

set_option linter.unusedVariables false

/-!
Verification development for the rag-toXiv repository (arXiv feed ingestion,
snapshot retention, and a Mastodon reply bot).  Python strings are embedded as
`List Char`; the on-disk snapshot store as an association list from filename to
content; the poller loop body as a pure state-transition function.  External
collaborators (the feed retrieval call, the LLM completion, the Mastodon client,
the stdlib `html.unescape`) are modelled as explicit function parameters; all
repository-owned logic (regexes used by the code, retry loop, retention
policies, truncation, classification) is translated from the source.
-/

namespace RagToXiv

/-- Whitespace class used by Python `str.strip` and the regex class `\s`
(ASCII range, which is all the repository's patterns rely on). -/
def isPySpace (c : Char) : Bool :=
  c == ' ' || c == '\t' || c == '\n' || c == '\r' || c == Char.ofNat 11 || c == Char.ofNat 12

/-- Python `str.strip()`: drop whitespace at both ends. -/
def stripList (l : List Char) : List Char :=
  ((l.dropWhile isPySpace).reverse.dropWhile isPySpace).reverse

/-- The part of `t` strictly before the first occurrence of the substring `sep`;
`none` when `sep` does not occur.  Embeds Python `sep in t` together with
`t.split(sep)[0]`. -/
def splitBefore (sep : List Char) : List Char → Option (List Char)
  | [] => if sep.isPrefixOf ([] : List Char) then some [] else none
  | c :: r =>
    if sep.isPrefixOf (c :: r) then some []
    else (splitBefore sep r).map (fun pre => c :: pre)

/-- Index of the first occurrence of the substring `sep` in `t`. -/
def firstOcc (sep : List Char) : List Char → Option Nat
  | [] => if sep.isPrefixOf ([] : List Char) then some 0 else none
  | c :: r =>
    if sep.isPrefixOf (c :: r) then some 0
    else (firstOcc sep r).map (fun i => i + 1)

/-- Python substring containment `sub in s`. -/
def containsSub (sub s : List Char) : Bool := (firstOcc sub s).isSome

/-- Minimum of two optional indices (used only to state the spec's
"earliest position" reading of `first_sentence`). -/
def minOpt : Option Nat → Option Nat → Option Nat
  | none, b => b
  | some a, none => some a
  | some a, some b => some (min a b)

def dotSpace : List Char := ['.', ' ']

def dotNL : List Char := ['.', '\n']

def dotTab : List Char := ['.', '\t']

def ellipsis3 : List Char := ['.', '.', '.']

/-- `first_sentence` from rag_toXiv_reply_bot.py: the loop
`for end in [". ", ".\n", ".\t"]: if end in text: return text.split(end)[0] + "."`
tries the three boundary strings in this fixed order and splits at the first
occurrence of the first one present anywhere in the text; otherwise it returns
the first 200 characters plus an ellipsis marker. -/
def first_sentence (text : List Char) : List Char :=
  match splitBefore dotSpace text with
  | some pre => pre ++ ['.']
  | none =>
    match splitBefore dotNL text with
    | some pre => pre ++ ['.']
    | none =>
      match splitBefore dotTab text with
      | some pre => pre ++ ['.']
      | none => text.take 200 ++ ellipsis3

/-- Modelled from the claim's words (for comparison with `first_sentence`):
cut at the boundary whose occurrence is earliest in the text, regardless of
which of the three boundary strings it is. -/
def first_sentence_claimed (text : List Char) : List Char :=
  match minOpt (minOpt (firstOcc dotSpace text) (firstOcc dotNL text)) (firstOcc dotTab text) with
  | some i => text.take i ++ ['.']
  | none => text.take 200 ++ ellipsis3

/-- Priority-order description of `first_sentence` (the amended claim): the
boundary strings are tried in the fixed order period-space, period-newline,
period-tab, each cut at its own first occurrence. -/
def first_sentence_priority (text : List Char) : List Char :=
  match firstOcc dotSpace text with
  | some i => text.take i ++ ['.']
  | none =>
    match firstOcc dotNL text with
    | some i => text.take i ++ ['.']
    | none =>
      match firstOcc dotTab text with
      | some i => text.take i ++ ['.']
      | none => text.take 200 ++ ellipsis3

/-- Concrete abstract text containing ".\n" (at index 1) before ". " (at index 4). -/
def c4_input : List Char := ['A', '.', '\n', 'B', '.', ' ', 'C', '.']

/-- `MAX_TOOT_LENGTH` from rag_toXiv_variables.py. -/
def MAX_TOOT_LENGTH : Nat := 5000

/-- `DEFAULT_CATEGORY` from rag_toXiv_variables.py. -/
def DEFAULT_CATEGORY : List Char := "cs.LG".toList

/-- `arxiv_max_trial` from rag_toXiv_variables.py. -/
def arxiv_max_trial : Nat := 2

/-- The reply truncation performed by both `run_reply_bot` and `run_once`:
`if len(reply_text) > MAX_TOOT_LENGTH - 100: reply_text = reply_text[: MAX_TOOT_LENGTH - 103] + "..."`. -/
def truncate_reply (reply_text : List Char) : List Char :=
  if MAX_TOOT_LENGTH - 100 < reply_text.length then
    reply_text.take (MAX_TOOT_LENGTH - 103) ++ ellipsis3
  else reply_text

/-- A parsed feed as returned by the external `arXiv_feed_parser.retrieve`
call: the malformed-feed flag `bozo` and the entry list (entry payloads are
opaque to `daily_entries`, which only inspects the list's length). -/
structure Feed where
  bozo : Bool
  entries : List String
deriving DecidableEq

/-- Outcome of `daily_entries`: a returned feed, the `raise Exception("fatal
parse error ...")` branch, or the implicit `return None` taken when the while
loop's guard is false on entry (only possible for `arxiv_max_trial = 0`). -/
inductive FetchResult where
  | ok : Feed → FetchResult
  | fatal : FetchResult
  | noneReturn : FetchResult
deriving DecidableEq

/-- The body of `daily_entries` from rag_arXiv_daily_feed.py, with the attempt
outcomes supplied by `retrieve : Nat → Feed` (attempt index → parsed feed).
The `fuel` argument only drives structural recursion; it is initialised to
`max_trial` so that it reaches 0 exactly when `trial_num = max_trial`, where the
loop guard is false anyway.  The `bozo` flag is only printed by the source and
does not enter the control flow, which the translation makes literal. -/
def daily_entries_aux (retrieve : Nat → Feed) (max_trial : Nat) : Nat → Nat → FetchResult
  | _, 0 => .noneReturn
  | trial_num, fuel + 1 =>
    if trial_num < max_trial then
      let feed := retrieve trial_num
      if trial_num < max_trial - 1 then
        if 0 < feed.entries.length then .ok feed
        else
          if trial_num + 1 < max_trial then
            daily_entries_aux retrieve max_trial (trial_num + 1) fuel
          else .fatal
      else .ok feed
    else .noneReturn

/-- `daily_entries(cat, aliases)` with the retrieval call abstracted: the rate
limiter decorators delay but never change the returned value. -/
def daily_entries (retrieve : Nat → Feed) (max_trial : Nat) : FetchResult :=
  daily_entries_aux retrieve max_trial 0 max_trial

/-- Replace the malformed-feed flags of a retrieval behaviour (used to state
that `bozo` never influences what `daily_entries` returns). -/
def setBozo (retrieve : Nat → Feed) (g : Nat → Bool) : Nat → Feed :=
  fun n => { retrieve n with bozo := g n }

/-- A paper record as consumed by the reply bot (`p['id']`, `p['title']`,
`p['abstract']` are the only fields the modelled code paths read; the remaining
JSON fields — authors, subject, label, urls — are written but never consulted). -/
structure Paper where
  pid : List Char
  title : List Char
  abstract : List Char
deriving DecidableEq

/-- Snapshot filename from `save_feed_json`:
`f"{date_str}_{category.replace('.', '_')}.json"`.  `date_str` is the
`%Y-%m-%d` rendering of the upstream `feed.updated` timestamp (the
`dateutil.parser.parse` / `strftime` pair is external library behaviour and is
modelled as this already-extracted date string). -/
def mkFilename (date_str category : List Char) : List Char :=
  date_str ++ ('_' :: category.map (fun c => if c == '.' then '_' else c)) ++ (".json".toList)

/-- Writing a file with mode "w": any existing file of the same name is
replaced; the directory keeps at most one entry per name. -/
def writeFile {α : Type} (fs : List (List Char × α)) (name : List Char) (v : α) :
    List (List Char × α) :=
  (fs.filter (fun e => !(e.1 == name))) ++ [(name, v)]

/-- `save_feed_json` restricted to its persistence effect: compute the filename
from the feed's update date and the category, then overwrite-write the record. -/
def save_feed_json {α : Type} (fs : List (List Char × α)) (date_str category : List Char)
    (data : α) : List (List Char × α) :=
  writeFile fs (mkFilename date_str category) data

/-- A sequence of fetch-and-save operations (date string, category, saved record). -/
def save_seq {α : Type} (fs : List (List Char × α))
    (ops : List ((List Char × List Char) × α)) : List (List Char × α) :=
  ops.foldl (fun acc op => save_feed_json acc op.1.1 op.1.2 op.2) fs

/-- The stored files carrying a given name. -/
def filterKey {α : Type} (fs : List (List Char × α)) (name : List Char) :
    List (List Char × α) :=
  fs.filter (fun e => e.1 == name)

/-- Number of stored files carrying a given name. -/
def countKey {α : Type} (fs : List (List Char × α)) (name : List Char) : Nat :=
  (filterKey fs name).length

/-- A snapshot file of one category as seen by `cleanup_by_cat_max_files`:
`fdate` is the filename sort key (the `YYYY-MM-DD` prefix; `sorted(...,
reverse=True)` orders these newest first), `papers` the parsed "papers" list,
`none` when the file is unreadable or corrupt. -/
structure CatFile where
  fdate : Nat
  papers : Option (List Paper)
deriving DecidableEq

/-- `is_empty_file` from save_daily_json.py: no papers means empty; a
corrupt/unreadable file is reported non-empty (the `except` branch returns
`False`). -/
def is_empty_file (f : CatFile) : Bool :=
  match f.papers with
  | some ps => ps.length == 0
  | none => false

/-- The per-category loop of `cleanup_by_cat_max_files`, over the newest-first
file list, returning the files selected for deletion.  `kept_count` is the
running count of retained (counted) files. -/
def cleanup_by_cat_max_files_aux (max_files : Nat) (skip_empty : Bool) :
    List CatFile → Nat → List CatFile
  | [], _ => []
  | f :: rest, kept_count =>
    if skip_empty && is_empty_file f then
      cleanup_by_cat_max_files_aux max_files skip_empty rest kept_count
    else if kept_count < max_files then
      cleanup_by_cat_max_files_aux max_files skip_empty rest (kept_count + 1)
    else
      f :: cleanup_by_cat_max_files_aux max_files skip_empty rest kept_count

/-- A data file candidate of `cleanup_old_files`: `fdate` is the date parsed
from the filename's 10-character prefix as a day ordinal, `none` when
`datetime.strptime` raises (unparseable prefix, which the source skips with a
warning). -/
structure AgedFile where
  fname : List Char
  fdate : Option Int
deriving DecidableEq

/-- Deletion predicate of `cleanup_old_files`:
`file_date.date() < cutoff_date.date()`, never true for unparseable names. -/
def ageDelete (cutoff : Int) (f : AgedFile) : Bool :=
  match f.fdate with
  | some d => decide (d < cutoff)
  | none => false

/-- The loop of `cleanup_old_files` from save_daily_json.py, returning the
deleted files.  `cutoff` is the day ordinal of `datetime.now(utc) -
timedelta(days=days)`, i.e. today's ordinal minus `days`. -/
def cleanup_old_files (cutoff : Int) : List AgedFile → List AgedFile
  | [] => []
  | f :: rest =>
    match f.fdate with
    | none => cleanup_old_files cutoff rest
    | some d =>
      if d < cutoff then f :: cleanup_old_files cutoff rest
      else cleanup_old_files cutoff rest

/-- Regex class `[a-z]` (the source patterns are ASCII). -/
def isLowerAZ (c : Char) : Bool := 'a' ≤ c && c ≤ 'z'

/-- Regex class `[A-Z]`. -/
def isUpperAZ (c : Char) : Bool := 'A' ≤ c && c ≤ 'Z'

/-- Regex class `[0-9]`. -/
def isDigit09 (c : Char) : Bool := '0' ≤ c && c ≤ '9'

/-- Regex class `\w` (`[A-Za-z0-9_]` on the ASCII inputs the bot handles). -/
def isWordChar (c : Char) : Bool := isLowerAZ c || isUpperAZ c || isDigit09 c || c == '_'

/-- Length of the leading `[a-z]` run. -/
def lowerRun : List Char → Nat
  | [] => 0
  | c :: r => if isLowerAZ c then lowerRun r + 1 else 0

/-- `\b` after the two uppercase letters: next character absent or not a word
character. -/
def notWordAhead : List Char → Bool
  | [] => true
  | c :: _ => !(isWordChar c)

/-- Attempted match of `\b([a-z]{2,4}\.[A-Z]{2})\b` at the current position.
`prevWord` says whether the character before the position is a word character
(false at the string start).  The greedy `[a-z]{2,4}` can only succeed when the
whole leading lowercase run has length 2–4 and is followed by a literal '.',
so the run length determines the match. -/
def matchCatAt (prevWord : Bool) (l : List Char) : Option (List Char) :=
  if prevWord then none
  else if 2 ≤ lowerRun l ∧ lowerRun l ≤ 4 then
    match l.drop (lowerRun l) with
    | c0 :: u1 :: u2 :: rest =>
      if c0 == '.' && isUpperAZ u1 && isUpperAZ u2 && notWordAhead rest then
        some (l.take (lowerRun l) ++ c0 :: u1 :: [u2])
      else none
    | _ => none
  else none

/-- `re.search` for the category pattern: leftmost match, scanning positions
left to right while tracking whether the previous character is a word
character. -/
def searchCat : Bool → List Char → Option (List Char)
  | _, [] => none
  | prevW, c :: r =>
    match matchCatAt prevW (c :: r) with
    | some m => some m
    | none => searchCat (isWordChar c) r

/-- `extract_category_from_message` from rag_toXiv_reply_bot.py:
`re.search(r"\b([a-z]{2,4}\.[A-Z]{2})\b", text)`, defaulting to
`DEFAULT_CATEGORY`. -/
def extract_category_from_message (text : List Char) : List Char :=
  match searchCat false text with
  | some m => m
  | none => DEFAULT_CATEGORY

/-- Shape of a category token: 2–4 lowercase letters, a period, two uppercase
letters (used to state what `extract_category_from_message` can return). -/
def CatShapeP (m : List Char) : Prop :=
  ∃ low u1 u2, m = low ++ '.' :: u1 :: [u2] ∧
    2 ≤ low.length ∧ low.length ≤ 4 ∧
    (∀ c ∈ low, isLowerAZ c = true) ∧ isUpperAZ u1 = true ∧ isUpperAZ u2 = true

/-- Scanner state for `re.sub(r"@\S+", "", text)`. -/
inductive MentionScanState where
  | normal
  | afterAt
  | inMention
deriving DecidableEq

/-- `re.sub(r"@\S+", "", text)`: an '@' followed by at least one non-whitespace
character starts a match that greedily consumes the whole non-whitespace run
(including further '@'s); an '@' followed by whitespace or the end matches
nothing and is kept. -/
def subMentionsAux : MentionScanState → List Char → List Char
  | .normal, [] => []
  | .normal, c :: r =>
    if c == '@' then subMentionsAux .afterAt r else c :: subMentionsAux .normal r
  | .afterAt, [] => ['@']
  | .afterAt, c :: r =>
    if isPySpace c then '@' :: c :: subMentionsAux .normal r
    else subMentionsAux .inMention r
  | .inMention, [] => []
  | .inMention, c :: r =>
    if isPySpace c then c :: subMentionsAux .normal r
    else subMentionsAux .inMention r

/-- `strip_mentions` from rag_toXiv_reply_bot.py:
`re.sub(r"@\S+", "", text).strip()`. -/
def strip_mentions (text : List Char) : List Char :=
  stripList (subMentionsAux .normal text)

/-- Scanner for `re.sub(r"<[^>]+>", "", text)`.  The state buffers (reversed)
the characters seen since an opening '<' that may yet form a tag: on a later
'>' with a non-empty buffer the whole tag is dropped; "<>" matches nothing and
both characters are kept; an unclosed '<' keeps everything buffered. -/
def stripTagsAux : Option (List Char) → List Char → List Char
  | none, [] => []
  | none, c :: r =>
    if c == '<' then stripTagsAux (some []) r else c :: stripTagsAux none r
  | some buf, [] => '<' :: buf.reverse
  | some buf, c :: r =>
    if c == '>' then
      if buf = [] then '<' :: '>' :: stripTagsAux none r
      else stripTagsAux none r
    else stripTagsAux (some (c :: buf)) r

/-- Markup removal applied to mention content:
`re.sub(r"<[^>]+>", "", status["content"])`. -/
def stripTags (text : List Char) : List Char :=
  stripTagsAux none text

/-- `help_triggers` from `is_help_request`. -/
def help_triggers : List (List Char) :=
  ["help".toList, "?".toList, "how do i use".toList,
   "what can you do".toList, "commands".toList, "usage".toList]

/-- `is_help_request` from rag_toXiv_reply_bot.py: lowercase, strip, then
case-insensitive substring match against the fixed trigger list. -/
def is_help_request (text : List Char) : Bool :=
  help_triggers.any (fun trig => containsSub trig (stripList (text.map Char.toLower)))

/-- Context verbosity modes of `build_context`; the CLI maps `--title`,
`--first-sentence`, `--full-abstract` onto exactly these three, so the
`raise ValueError` branch for other strings is unreachable from the bot. -/
inductive Mode where
  | title
  | firstSentence
  | fullAbstract
deriving DecidableEq

/-- `build_context` from rag_toXiv_reply_bot.py. -/
def build_context (papers : List Paper) (mode : Mode) : List Char :=
  List.intercalate (match mode with | .title => ['\n'] | _ => ['\n', '\n'])
    (papers.map (fun p =>
      match mode with
      | .title => ('[' :: p.pid) ++ ("] ".toList) ++ p.title
      | .firstSentence =>
          ('[' :: p.pid) ++ ("] ".toList) ++ p.title ++
          ('\n' :: ("Abstract: ".toList)) ++ first_sentence p.abstract
      | .fullAbstract =>
          ('[' :: p.pid) ++ ("] ".toList) ++ p.title ++
          ('\n' :: ("Abstract: ".toList)) ++ p.abstract))

/-- Apostrophe character (spelled via its code point). -/
def apos : Char := Char.ofNat 39

/-- `PROMPT_TEMPLATE.format(category=..., context=..., question=...)` from
rag_toXiv_variables.py. -/
def prompt_fmt (category context question : List Char) : List Char :=
  ("You are an arXiv paper assistant bot on Mastodon.\nAnswer the user".toList) ++ [apos] ++
  ("s question based only on recent ".toList) ++ category ++
  (" papers.\nBeconcise and helpful. Keep response under 4000 characters.\n\nImportant: Format paper references as clickable links: https://arxiv.org/abs/ID\n\nExample: Instead of just 2512.21450, write https://arxiv.org/abs/2512.21450\n\nRecent ".toList) ++
  category ++ (" papers:\n".toList) ++ context ++ ("\n\nUser question: ".toList) ++ question ++
  ("\n\nIf the question is about the papers above, answer it. If not, politely decline and explain your purpose.".toList)

/-- `HELP_MESSAGE_TEMPLATE.format(cat_list=...)` from rag_toXiv_variables.py. -/
def help_template (cat_list : List Char) : List Char :=
  ("\nI".toList) ++ [apos] ++
  ("m an arXiv paper assistant. I can help you explore recent arXiv papers.\n\nThings I can help with:\n- \"summarize today".toList) ++
  [apos] ++
  ("s papers\"\n- \"any papers on transformers?\"\n- \"find papers about diffusion models\"\n- \"explain what paper 2512.xxxxx is about\"\n\nAvailable categories: ".toList) ++
  cat_list

/-- `get_help_message` with the directory scan of `get_available_categories`
abstracted as the category list `available`. -/
def get_help_message (available : List (List Char)) : List Char :=
  help_template
    (if available = [] then ("none fetched yet".toList)
     else List.intercalate (", ".toList) available)

/-- The "no recent data" reply built inline in `run_reply_bot` / `run_once`. -/
def no_data_message (category : List Char) (available : List (List Char)) : List Char :=
  ("Sorry, I don".toList) ++ [apos] ++ ("t have recent data for ".toList) ++ category ++
  (". Available categories: ".toList) ++
  (if available = [] then ("none yet".toList)
   else List.intercalate (", ".toList) available) ++ ['.']

/-- A mention notification: `str(notif["id"])`, the status visibility, the raw
HTML-bearing status content, and the account handle. -/
structure Mention where
  mid : List Char
  visibility : List Char
  content : List Char
  acct : List Char
deriving DecidableEq

/-- Observable poller state: the in-memory processed set, its persisted
(on-disk) copy, the replies posted so far, and the interaction log (which
records the category used for each handled mention). -/
structure BotState where
  processed : List (List Char)
  disk : List (List Char)
  posts : List (List Char)
  logs : List (List Char)
deriving DecidableEq

/-- External collaborators of the poller: the stdlib `html.unescape`, the LLM
completion (`prompt ↦ response text`), `load_feeds` (snapshot retrieval for a
category), the available-category listing, the dry-run flag and context mode. -/
structure Env where
  unescape : List Char → List Char
  llmComplete : List Char → List Char
  load_feeds : List Char → List Paper
  availableCats : List (List Char)
  dryRun : Bool
  mode : Mode

/-- Python `set.add`: insert if not already present. -/
def addId (l : List (List Char)) (x : List Char) : List (List Char) :=
  if x ∈ l then l else x :: l

/-- Mark a mention processed; in continuous mode (`saveEach = true`) the set is
immediately persisted (`save_processed`), in run-once mode it is not. -/
def mark (saveEach : Bool) (st : BotState) (mid : List Char) : BotState :=
  { st with
    processed := addId st.processed mid,
    disk := if saveEach then addId st.processed mid else st.disk }

/-- Reply text and logged category for an eligible, non-empty mention:
the help route, the no-data route, or `generate_reply` (prompt construction is
repository code; the completion itself is `env.llmComplete`, and the source
applies `.strip()` to the response). -/
def mention_reply (env : Env) (content question : List Char) : List Char × List Char :=
  if is_help_request question then (get_help_message env.availableCats, "help".toList)
  else
    (if env.load_feeds (extract_category_from_message content) = [] then
      no_data_message (extract_category_from_message content) env.availableCats
     else
      stripList (env.llmComplete (prompt_fmt (extract_category_from_message content)
        (build_context (env.load_feeds (extract_category_from_message content)) env.mode)
        question)),
     extract_category_from_message content)

/-- The reply-generating tail of the loop body: classify, build the reply,
truncate, post (unless dry-run), log, record processed (persisting immediately
in continuous mode).  Note the source passes `content` — not the
mention-stripped `question` — to `extract_category_from_message`. -/
def postReply (env : Env) (saveEach : Bool) (st : BotState) (m : Mention) : BotState :=
  { processed := addId st.processed m.mid,
    disk := if saveEach then addId st.processed m.mid else st.disk,
    posts :=
      if env.dryRun then st.posts
      else st.posts ++
        [truncate_reply (mention_reply env (env.unescape (stripTags m.content))
          (strip_mentions (env.unescape (stripTags m.content)))).1],
    logs := st.logs ++
      [(mention_reply env (env.unescape (stripTags m.content))
        (strip_mentions (env.unescape (stripTags m.content)))).2] }

/-- One iteration of the per-mention loop shared by `run_reply_bot`
(`saveEach = true`: `save_processed` after every addition) and `run_once`
(`saveEach = false`: additions stay in memory until the batch-end save):
dedup check, visibility filter, markup/mention stripping, empty-question drop,
classification, reply, delivery, record-processed. -/
def processMention (env : Env) (saveEach : Bool) (st : BotState) (m : Mention) : BotState :=
  if m.mid ∈ st.processed then st
  else if m.visibility = ("public".toList) ∨ m.visibility = ("unlisted".toList) then
    if strip_mentions (env.unescape (stripTags m.content)) = [] then
      mark saveEach st m.mid
    else
      postReply env saveEach st m
  else
    mark saveEach st m.mid

/-- One pass of the continuous bot over a batch of fetched notifications. -/
def run_reply_bot_iter (env : Env) (st : BotState) (ms : List Mention) : BotState :=
  ms.foldl (processMention env true) st

/-- The whole of `run_once`: process the batch without intermediate saves,
then `save_processed(processed)` once at the end. -/
def run_once_batch (env : Env) (st : BotState) (ms : List Mention) : BotState :=
  { ms.foldl (processMention env false) st with
    disk := (ms.foldl (processMention env false) st).processed }

/-- Concrete environment for witnesses: entity-free inputs (so the stdlib
`html.unescape` is the identity), an LLM stub, an empty snapshot store. -/
def envW : Env :=
  { unescape := id, llmComplete := fun _ => "ok".toList, load_feeds := fun _ => [],
    availableCats := [], dryRun := false, mode := .firstSentence }

/-- Fresh poller state (empty processed set, nothing persisted or posted). -/
def st0W : BotState := ⟨[], [], [], []⟩

/-- A concrete public mention with a plain question. -/
def mW : Mention :=
  { mid := "101".toList, visibility := "public".toList,
    content := "hi there".toList, acct := "alice".toList }

/-- A concrete public mention whose content is nothing but the bot's handle,
so the residual question is empty. -/
def mEmptyW : Mention :=
  { mid := "102".toList, visibility := "public".toList,
    content := "@bob@example.org".toList, acct := "carol".toList }

/-- A mention whose handle `@m@cs.LG` contains a category-shaped token while
the residual question names `math.CO`. -/
def mHijackW : Mention :=
  { mid := "103".toList, visibility := "public".toList,
    content := "@m@cs.LG what about math.CO".toList, acct := "dave".toList }

/-- A mention naming `math.CO` with no help phrase and a pattern-free handle
remainder. -/
def mCatW : Mention :=
  { mid := "104".toList, visibility := "public".toList,
    content := "any news on math.CO".toList, acct := "erin".toList }

end RagToXiv

namespace RagToXiv

theorem splitBefore_eq_firstOcc (sep : List Char) (t : List Char) :
    splitBefore sep t = (firstOcc sep t).map (fun i => t.take i) := by
  induction t with
  | nil =>
    by_cases h : sep.isPrefixOf ([] : List Char) <;> simp [splitBefore, firstOcc, h]
  | cons c r ih =>
    by_cases h : sep.isPrefixOf (c :: r)
    · simp [splitBefore, firstOcc, h]
    · simp only [splitBefore, firstOcc, if_neg h, ih]
      cases firstOcc sep r <;> simp

/-- Claim C4 — corrected.  `first_sentence` does not cut at the boundary whose
occurrence is earliest in the text: it tries the three boundary strings in the
fixed order period-space, period-newline, period-tab, and cuts at the first
occurrence of the first boundary string present anywhere.  It cuts the text
`"A.\nB. C."` at the period-space (position 4) even though a period-newline
occurs earlier (position 1), where the claim's earliest-position rule would
return `"A."`. -/
theorem C4_counterexample :
    first_sentence c4_input = ['A', '.', '\n', 'B', '.'] ∧
    first_sentence_claimed c4_input = ['A', '.'] ∧
    first_sentence c4_input ≠ first_sentence_claimed c4_input := by
  decide

/-- Claim C4 — amended.  `first_sentence` equals the priority-order
description: split at the first occurrence of ". " when it occurs anywhere,
else at the first occurrence of ".\n", else of ".\t" (the boundary replaced by
a bare period), and otherwise return the first 200 characters plus an ellipsis
marker; in particular `"Result X. Result Y."` yields `"Result X."` and a
boundary-free text yields its first 200 characters plus the marker. -/
theorem C4_first_sentence_priority_order :
    (∀ text : List Char, first_sentence text = first_sentence_priority text) ∧
    first_sentence ("Result X. Result Y.".toList) = ("Result X.".toList) ∧
    first_sentence ("No sentence boundary here".toList) =
      ("No sentence boundary here".toList) ++ ellipsis3 := by
  refine ⟨fun text => ?_, by decide, by decide⟩
  unfold first_sentence first_sentence_priority
  rw [splitBefore_eq_firstOcc, splitBefore_eq_firstOcc, splitBefore_eq_firstOcc]
  cases firstOcc dotSpace text <;> cases firstOcc dotNL text <;>
    cases firstOcc dotTab text <;> simp

theorem truncate_reply_long {reply : List Char}
    (h : MAX_TOOT_LENGTH - 100 < reply.length) :
    truncate_reply reply = reply.take (MAX_TOOT_LENGTH - 103) ++ ellipsis3 ∧
    (truncate_reply reply).length = MAX_TOOT_LENGTH - 100 := by
  have h1 : truncate_reply reply = reply.take (MAX_TOOT_LENGTH - 103) ++ ellipsis3 := by
    simp [truncate_reply, h]
  refine ⟨h1, ?_⟩
  rw [h1]
  simp only [List.length_append, List.length_take, ellipsis3, List.length_cons,
    List.length_nil, MAX_TOOT_LENGTH] at *
  omega

/-- Claim C3: replies longer than `MAX_TOOT_LENGTH - 100` are cut to
`MAX_TOOT_LENGTH - 103` characters plus the 3-character ellipsis marker, giving
length exactly `MAX_TOOT_LENGTH - 100`; shorter replies are posted unchanged;
the posted length never exceeds `MAX_TOOT_LENGTH - 100`; and every text the
poller step appends to the posted list is the truncation of some reply. -/
theorem C3_truncation (reply : List Char) (env : Env) (b : Bool) (st : BotState) (m : Mention) :
    (MAX_TOOT_LENGTH - 100 < reply.length →
      truncate_reply reply = reply.take (MAX_TOOT_LENGTH - 103) ++ ellipsis3 ∧
      (truncate_reply reply).length = MAX_TOOT_LENGTH - 100) ∧
    (reply.length ≤ MAX_TOOT_LENGTH - 100 → truncate_reply reply = reply) ∧
    (truncate_reply reply).length ≤ MAX_TOOT_LENGTH - 100 ∧
    (∀ p ∈ (processMention env b st m).posts, p ∈ st.posts ∨ ∃ r, p = truncate_reply r) := by
  refine ⟨fun h => truncate_reply_long h, fun h => ?_, ?_, ?_⟩
  · have hn : ¬ (MAX_TOOT_LENGTH - 100 < reply.length) := by omega
    simp [truncate_reply, hn]
  · by_cases h : MAX_TOOT_LENGTH - 100 < reply.length
    · exact (truncate_reply_long h).2.le
    · simp only [truncate_reply, if_neg h]
      omega
  · intro p hp
    unfold processMention at hp
    by_cases h1 : m.mid ∈ st.processed
    · rw [if_pos h1] at hp; exact Or.inl hp
    · rw [if_neg h1] at hp
      by_cases h2 : m.visibility = ("public".toList) ∨ m.visibility = ("unlisted".toList)
      · rw [if_pos h2] at hp
        by_cases h3 : strip_mentions (env.unescape (stripTags m.content)) = []
        · rw [if_pos h3] at hp; exact Or.inl hp
        · rw [if_neg h3] at hp
          simp only [postReply] at hp
          by_cases h4 : env.dryRun
          · rw [if_pos h4] at hp; exact Or.inl hp
          · rw [if_neg h4] at hp
            rcases List.mem_append.mp hp with h5 | h5
            · exact Or.inl h5
            · exact Or.inr ⟨_, (List.mem_singleton.mp h5)⟩
      · rw [if_neg h2] at hp; exact Or.inl hp

/-- Witness for C3 at a concrete 4901-character reply and the concrete poller
step inputs. -/
theorem C3_witness :
    (truncate_reply (List.replicate 4901 'a')).length = MAX_TOOT_LENGTH - 100 ∧
    truncate_reply ("short".toList) = ("short".toList) := by
  have h := C3_truncation (List.replicate 4901 'a') envW true st0W mW
  have h2 := C3_truncation ("short".toList) envW true st0W mW
  refine ⟨(h.1 ?_).2, h2.2.1 ?_⟩
  · rw [List.length_replicate, MAX_TOOT_LENGTH]; omega
  · rw [MAX_TOOT_LENGTH]
    have : ("short".toList).length = 5 := rfl
    omega

theorem daily_entries_aux_ok (retrieve : Nat → Feed) (max_trial : Nat) :
    ∀ fuel trial_num, max_trial ≤ trial_num + fuel → trial_num < max_trial →
      ∃ f, daily_entries_aux retrieve max_trial trial_num fuel = .ok f := by
  intro fuel
  induction fuel with
  | zero => intro t h1 h2; omega
  | succ fuel ih =>
    intro t h1 h2
    simp only [daily_entries_aux]
    rw [if_pos h2]
    by_cases h3 : t < max_trial - 1
    · rw [if_pos h3]
      by_cases h4 : 0 < (retrieve t).entries.length
      · rw [if_pos h4]; exact ⟨_, rfl⟩
      · rw [if_neg h4]
        have h5 : t + 1 < max_trial := by omega
        rw [if_pos h5]
        exact ih (t + 1) (by omega) h5
    · rw [if_neg h3]; exact ⟨_, rfl⟩

theorem daily_entries_aux_first_nonempty (retrieve : Nat → Feed) (max_trial : Nat) :
    ∀ fuel trial_num t, max_trial ≤ trial_num + fuel → trial_num ≤ t →
      t < max_trial - 1 → (retrieve t).entries ≠ [] →
      (∀ s, trial_num ≤ s → s < t → (retrieve s).entries = []) →
      daily_entries_aux retrieve max_trial trial_num fuel = .ok (retrieve t) := by
  intro fuel
  induction fuel with
  | zero => intro tn t h1 h2 h3 h4 h5; omega
  | succ fuel ih =>
    intro tn t h1 h2 h3 h4 h5
    simp only [daily_entries_aux]
    rw [if_pos (show tn < max_trial by omega)]
    rw [if_pos (show tn < max_trial - 1 by omega)]
    rcases Nat.eq_or_lt_of_le h2 with heq | hlt
    · subst heq
      rw [if_pos (List.length_pos.mpr h4)]
    · have he : (retrieve tn).entries = [] := h5 tn le_rfl hlt
      rw [if_neg (by simp [he])]
      rw [if_pos (show tn + 1 < max_trial by omega)]
      exact ih (tn + 1) t (by omega) hlt h3 h4
        (fun s hs1 hs2 => h5 s (by omega) hs2)

theorem daily_entries_aux_all_empty (retrieve : Nat → Feed) (max_trial : Nat) :
    ∀ fuel trial_num, max_trial ≤ trial_num + fuel → trial_num < max_trial →
      (∀ s, trial_num ≤ s → s < max_trial - 1 → (retrieve s).entries = []) →
      daily_entries_aux retrieve max_trial trial_num fuel = .ok (retrieve (max_trial - 1)) := by
  intro fuel
  induction fuel with
  | zero => intro tn h1 h2 h3; omega
  | succ fuel ih =>
    intro tn h1 h2 h3
    simp only [daily_entries_aux]
    rw [if_pos h2]
    by_cases h4 : tn < max_trial - 1
    · rw [if_pos h4]
      have he : (retrieve tn).entries = [] := h3 tn le_rfl h4
      rw [if_neg (by simp [he])]
      rw [if_pos (show tn + 1 < max_trial by omega)]
      exact ih (tn + 1) (by omega) (show tn + 1 < max_trial by omega)
        (fun s hs1 hs2 => h3 s (by omega) hs2)
    · rw [if_neg h4]
      have : tn = max_trial - 1 := by omega
      rw [this]

/-- Claim C5: for any retrieval behaviour and any `maxTrials ≥ 1` (the
documented configuration is `arxiv_max_trial = 2`), `daily_entries` always
returns a feed; the fatal exhaustion branch is unreachable; a malformed
(`bozo`) feed never changes the outcome beyond its logged warning (flipping the
bozo flags still yields a returned feed); on every attempt before the final one
a non-empty entry list returns immediately and an empty one retries; the final
attempt's feed is returned whether empty or not. -/
theorem C5_daily_entries_always_returns (retrieve : Nat → Feed) (max_trial : Nat)
    (hmax : 1 ≤ max_trial) :
    (∃ f, daily_entries retrieve max_trial = .ok f) ∧
    daily_entries retrieve max_trial ≠ .fatal ∧
    (∀ g : Nat → Bool, daily_entries (setBozo retrieve g) max_trial ≠ .fatal) ∧
    (∀ t, t < max_trial - 1 → (retrieve t).entries ≠ [] →
      (∀ s, s < t → (retrieve s).entries = []) →
      daily_entries retrieve max_trial = .ok (retrieve t)) ∧
    ((∀ t, t < max_trial - 1 → (retrieve t).entries = []) →
      daily_entries retrieve max_trial = .ok (retrieve (max_trial - 1))) := by
  have hok := daily_entries_aux_ok retrieve max_trial max_trial 0 (by omega) (by omega)
  refine ⟨hok, ?_, ?_, ?_, ?_⟩
  · rcases hok with ⟨f, hf⟩
    have hf2 : daily_entries retrieve max_trial = .ok f := hf
    rw [hf2]
    intro hcon
    exact FetchResult.noConfusion hcon
  · intro g
    rcases daily_entries_aux_ok (setBozo retrieve g) max_trial max_trial 0 (by omega)
      (by omega) with ⟨f, hf⟩
    have hf2 : daily_entries (setBozo retrieve g) max_trial = .ok f := hf
    rw [hf2]
    intro hcon
    exact FetchResult.noConfusion hcon
  · intro t ht hne hbefore
    exact daily_entries_aux_first_nonempty retrieve max_trial max_trial 0 t (by omega)
      (by omega) ht hne (fun s _ hs => hbefore s hs)
  · intro hall
    exact daily_entries_aux_all_empty retrieve max_trial max_trial 0 (by omega) (by omega)
      (fun s _ hs => hall s hs)

/-- Witness for C5: with the documented `arxiv_max_trial = 2` and a retrieval
that always yields a malformed, empty feed, `daily_entries` still returns that
feed (the final attempt returns whatever was retrieved) and never raises. -/
theorem C5_witness :
    daily_entries (fun _ => ⟨true, []⟩) arxiv_max_trial = .ok ⟨true, []⟩ ∧
    daily_entries (fun _ => ⟨true, []⟩) arxiv_max_trial ≠ .fatal := by
  have h := C5_daily_entries_always_returns (fun _ => ⟨true, []⟩) arxiv_max_trial (by decide)
  exact ⟨h.2.2.2.2 (fun t _ => rfl), h.2.1⟩

theorem cleanup_aux_eq_drop (max_files : Nat) :
    ∀ (l : List CatFile) (k : Nat),
      cleanup_by_cat_max_files_aux max_files true l k =
        (l.filter (fun f => !(is_empty_file f))).drop (max_files - k) := by
  intro l
  induction l with
  | nil => intro k; simp [cleanup_by_cat_max_files_aux]
  | cons f rest ih =>
    intro k
    by_cases he : is_empty_file f
    · simp only [cleanup_by_cat_max_files_aux, he, Bool.and_true, if_pos rfl]
      rw [ih k]
      simp [he]
    · by_cases hk : k < max_files
      · simp only [cleanup_by_cat_max_files_aux, he, Bool.and_false, if_neg Bool.false_ne_true,
          if_pos hk]
        rw [ih (k + 1)]
        simp only [List.filter_cons, he, Bool.not_false, if_pos rfl]
        rw [show max_files - k = (max_files - (k + 1)) + 1 by omega]
        rfl
      · simp only [cleanup_by_cat_max_files_aux, he, Bool.and_false, if_neg Bool.false_ne_true,
          if_neg hk]
        rw [ih k]
        rw [show max_files - k = 0 by omega]
        simp [he]

/-- Claim C2: with `skipEmpty = true` and `maxPerCategory = N` less than the
number `K` of non-empty files of a category (file list ordered newest-first, as
`sorted(..., reverse=True)` produces), the count-based cleanup deletes exactly
the non-empty files beyond the `N` newest non-empty ones: `K − N` files, all
non-empty, every deleted file at most as recent as every kept counted file;
empty files are excluded from the running count and never deleted. -/
theorem C2_retention_count (N : Nat) (files : List CatFile)
    (hsorted : List.Pairwise (fun a b : CatFile => b.fdate ≤ a.fdate) files)
    (hK : N < (files.filter (fun f => !(is_empty_file f))).length) :
    cleanup_by_cat_max_files_aux N true files 0 =
      (files.filter (fun f => !(is_empty_file f))).drop N ∧
    (cleanup_by_cat_max_files_aux N true files 0).length =
      (files.filter (fun f => !(is_empty_file f))).length - N ∧
    (∀ f ∈ cleanup_by_cat_max_files_aux N true files 0, is_empty_file f = false) ∧
    (∀ g ∈ cleanup_by_cat_max_files_aux N true files 0,
      ∀ f ∈ (files.filter (fun f => !(is_empty_file f))).take N, g.fdate ≤ f.fdate) := by
  have heq : cleanup_by_cat_max_files_aux N true files 0 =
      (files.filter (fun f => !(is_empty_file f))).drop N := by
    rw [cleanup_aux_eq_drop, Nat.sub_zero]
  have hpair : ((files.filter (fun f => !(is_empty_file f))).take N ++
      (files.filter (fun f => !(is_empty_file f))).drop N).Pairwise
        (fun a b : CatFile => b.fdate ≤ a.fdate) := by
    rw [List.take_append_drop]
    exact hsorted.sublist (List.filter_sublist files)
  refine ⟨heq, ?_, ?_, ?_⟩
  · rw [heq, List.length_drop]
  · intro f hf
    rw [heq] at hf
    have : f ∈ files.filter (fun f => !(is_empty_file f)) := List.mem_of_mem_drop hf
    have := (List.mem_filter.mp this).2
    simpa using this
  · intro g hg f hf
    rw [heq] at hg
    exact (List.pairwise_append.mp hpair).2.2 f hf g hg

/-- Witness for C2: three files of one category, newest first — a non-empty
file dated 3, an empty file dated 2, a non-empty file dated 1 — with
`maxPerCategory = 1`: exactly the oldest non-empty file is deleted and the
empty file survives. -/
theorem C2_witness :
    cleanup_by_cat_max_files_aux 1 true
      [⟨3, some [⟨['x'], ['t'], ['a']⟩]⟩, ⟨2, some []⟩, ⟨1, some [⟨['y'], ['t'], ['a']⟩]⟩] 0 =
      ([⟨3, some [⟨['x'], ['t'], ['a']⟩]⟩, ⟨2, some []⟩,
        ⟨1, some [⟨['y'], ['t'], ['a']⟩]⟩].filter (fun f => !(is_empty_file f))).drop 1 ∧
    (cleanup_by_cat_max_files_aux 1 true
      [⟨3, some [⟨['x'], ['t'], ['a']⟩]⟩, ⟨2, some []⟩, ⟨1, some [⟨['y'], ['t'], ['a']⟩]⟩] 0).length =
      ([⟨3, some [⟨['x'], ['t'], ['a']⟩]⟩, ⟨2, some []⟩,
        ⟨1, some [⟨['y'], ['t'], ['a']⟩]⟩].filter (fun f => !(is_empty_file f))).length - 1 := by
  have h := C2_retention_count 1
    [⟨3, some [⟨['x'], ['t'], ['a']⟩]⟩, ⟨2, some []⟩, ⟨1, some [⟨['y'], ['t'], ['a']⟩]⟩]
    (by decide) (by decide)
  exact ⟨h.1, h.2.1⟩

theorem cleanup_old_eq_filter (cutoff : Int) :
    ∀ l : List AgedFile, cleanup_old_files cutoff l = l.filter (ageDelete cutoff) := by
  intro l
  induction l with
  | nil => simp [cleanup_old_files]
  | cons f rest ih =>
    cases hf : f.fdate with
    | none => simp [cleanup_old_files, hf, ih, List.filter_cons, ageDelete]
    | some d =>
      by_cases hd : d < cutoff
      · simp [cleanup_old_files, hf, hd, ih, List.filter_cons, ageDelete]
      · simp [cleanup_old_files, hf, hd, ih, List.filter_cons, ageDelete]

/-- Claim C8: the age-based cleanup deletes a candidate file iff the date
parsed from its filename prefix is strictly older than `now − days`; a file
dated exactly at the cutoff is kept, one dated a day older is deleted, and a
file with an unparseable date prefix is never deleted. -/
theorem C8_age_cleanup (now days : Int) (files : List AgedFile) :
    (∀ f ∈ files,
      (f ∈ cleanup_old_files (now - days) files ↔ ∃ d, f.fdate = some d ∧ d < now - days)) ∧
    (∀ f ∈ files, f.fdate = none → f ∉ cleanup_old_files (now - days) files) ∧
    (∀ f ∈ files, f.fdate = some (now - days) → f ∉ cleanup_old_files (now - days) files) ∧
    (∀ f ∈ files, f.fdate = some (now - days - 1) → f ∈ cleanup_old_files (now - days) files) := by
  have hmem : ∀ f, f ∈ cleanup_old_files (now - days) files ↔
      f ∈ files ∧ ageDelete (now - days) f = true := by
    intro f
    rw [cleanup_old_eq_filter]
    exact List.mem_filter
  have hpred : ∀ f : AgedFile, ageDelete (now - days) f = true ↔
      ∃ d, f.fdate = some d ∧ d < now - days := by
    intro f
    cases hf : f.fdate with
    | none => simp [ageDelete, hf]
    | some d => simp [ageDelete, hf]
  refine ⟨?_, ?_, ?_, ?_⟩
  · intro f hf
    rw [hmem f, hpred f]
    exact ⟨fun h => h.2, fun h => ⟨hf, h⟩⟩
  · intro f hf hnone hdel
    rcases ((hmem f).mp hdel).2 |> (hpred f).mp with ⟨d, hd, _⟩
    rw [hnone] at hd
    exact Option.noConfusion hd
  · intro f hf hdate hdel
    rcases ((hmem f).mp hdel).2 |> (hpred f).mp with ⟨d, hd, hlt⟩
    rw [hdate] at hd
    injection hd with hd
    omega
  · intro f hf hdate
    rw [hmem f, hpred f]
    exact ⟨hf, ⟨now - days - 1, hdate, by omega⟩⟩

/-- Witness for C8: today is day 100, `days = 10`, four candidate files dated
89, 90, 91 and with an unparseable prefix: exactly the file dated 89 (one day
older than the cutoff 90) is deleted. -/
theorem C8_witness :
    (⟨"2026-03-30_cs_LG.json".toList, some 89⟩ : AgedFile) ∈
      cleanup_old_files (100 - 10)
        [⟨"2026-03-30_cs_LG.json".toList, some 89⟩, ⟨"2026-03-31_cs_LG.json".toList, some 90⟩,
         ⟨"2026-04-01_cs_LG.json".toList, some 91⟩, ⟨"latest_cs_LG.json".toList, none⟩] ∧
    (⟨"2026-03-31_cs_LG.json".toList, some 90⟩ : AgedFile) ∉
      cleanup_old_files (100 - 10)
        [⟨"2026-03-30_cs_LG.json".toList, some 89⟩, ⟨"2026-03-31_cs_LG.json".toList, some 90⟩,
         ⟨"2026-04-01_cs_LG.json".toList, some 91⟩, ⟨"latest_cs_LG.json".toList, none⟩] ∧
    (⟨"latest_cs_LG.json".toList, none⟩ : AgedFile) ∉
      cleanup_old_files (100 - 10)
        [⟨"2026-03-30_cs_LG.json".toList, some 89⟩, ⟨"2026-03-31_cs_LG.json".toList, some 90⟩,
         ⟨"2026-04-01_cs_LG.json".toList, some 91⟩, ⟨"latest_cs_LG.json".toList, none⟩] := by
  have h := C8_age_cleanup 100 10
    [⟨"2026-03-30_cs_LG.json".toList, some 89⟩, ⟨"2026-03-31_cs_LG.json".toList, some 90⟩,
     ⟨"2026-04-01_cs_LG.json".toList, some 91⟩, ⟨"latest_cs_LG.json".toList, none⟩]
  refine ⟨?_, ?_, ?_⟩
  · exact h.2.2.2 _ (by decide) (by decide)
  · exact h.2.2.1 _ (by decide) (by decide)
  · exact h.2.1 _ (by decide) (by decide)

theorem filterKey_writeFile_self {α : Type} (fs : List (List Char × α)) (name : List Char)
    (v : α) : filterKey (writeFile fs name v) name = [(name, v)] := by
  unfold filterKey writeFile
  rw [List.filter_append]
  have h1 : (fs.filter (fun e => !(e.1 == name))).filter
      (fun e : List Char × α => e.1 == name) = [] := by
    induction fs with
    | nil => rfl
    | cons e rest ih =>
      by_cases h : e.1 = name <;> simp [List.filter_cons, h, ih]
  rw [h1]
  simp

theorem filterKey_writeFile_other {α : Type} (fs : List (List Char × α)) (name n : List Char)
    (v : α) (h : n ≠ name) :
    filterKey (writeFile fs name v) n = filterKey fs n := by
  unfold filterKey writeFile
  rw [List.filter_append]
  have h2 : ([(name, v)].filter (fun e : List Char × α => e.1 == n)) = [] := by
    simp [List.filter_cons, Ne.symm h]
  rw [h2, List.append_nil]
  induction fs with
  | nil => rfl
  | cons e rest ih =>
    by_cases he : e.1 = name
    · have hne : ¬ e.1 = n := by rw [he]; exact Ne.symm h
      simp [List.filter_cons, he, hne, ih, Ne.symm h]
    · by_cases hn : e.1 = n <;> simp [List.filter_cons, he, hn, ih, h, Ne.symm h]

theorem countKey_save_le {α : Type} (fs : List (List Char × α)) (d c : List Char) (v : α)
    (hfs : ∀ n, countKey fs n ≤ 1) :
    ∀ n, countKey (save_feed_json fs d c v) n ≤ 1 := by
  intro n
  by_cases h : n = mkFilename d c
  · subst h
    unfold countKey save_feed_json
    rw [filterKey_writeFile_self]
    simp
  · unfold countKey save_feed_json
    rw [filterKey_writeFile_other _ _ _ _ h]
    exact hfs n

theorem countKey_save_seq_le {α : Type} :
    ∀ (ops : List ((List Char × List Char) × α)) (fs : List (List Char × α)),
      (∀ n, countKey fs n ≤ 1) → ∀ n, countKey (save_seq fs ops) n ≤ 1 := by
  intro ops
  induction ops with
  | nil => intro fs h n; exact h n
  | cons op rest ih =>
    intro fs h n
    exact ih (save_feed_json fs op.1.1 op.1.2 op.2) (countKey_save_le _ _ _ _ h) n

/-- Claim C6: the snapshot filename is the deterministic function
`mkFilename` of the feed-update date string and the category (periods replaced
by underscores), and saving overwrites: after a save, exactly one stored file
carries that (date, category) filename and it holds the saved record; files
under other names are untouched; two sequential saves for the same key leave
exactly one file holding the second record; and any sequence of saves keeps at
most one stored file per filename when the store started that way. -/
theorem C6_save_overwrite {α : Type} (fs : List (List Char × α))
    (date_str category : List Char) (v v2 : α) :
    filterKey (save_feed_json fs date_str category v) (mkFilename date_str category) =
      [(mkFilename date_str category, v)] ∧
    (∀ n, n ≠ mkFilename date_str category →
      filterKey (save_feed_json fs date_str category v) n = filterKey fs n) ∧
    filterKey (save_feed_json (save_feed_json fs date_str category v) date_str category v2)
      (mkFilename date_str category) = [(mkFilename date_str category, v2)] ∧
    ((∀ n, countKey fs n ≤ 1) →
      ∀ ops : List ((List Char × List Char) × α), ∀ n, countKey (save_seq fs ops) n ≤ 1) := by
  refine ⟨filterKey_writeFile_self fs _ v, ?_, filterKey_writeFile_self _ _ v2, ?_⟩
  · intro n hn
    exact filterKey_writeFile_other fs _ n v hn
  · intro h ops n
    exact countKey_save_seq_le ops fs h n

/-- Witness for C6: starting from an empty store, two saves for category
`cs.LG` on upstream date 2026-04-01 leave exactly the one file
`2026-04-01_cs_LG.json` holding the second record. -/
theorem C6_witness :
    filterKey (save_feed_json (save_feed_json ([] : List (List Char × Nat))
        ("2026-04-01".toList) ("cs.LG".toList) 1) ("2026-04-01".toList) ("cs.LG".toList) 2)
      (mkFilename ("2026-04-01".toList) ("cs.LG".toList)) =
      [(mkFilename ("2026-04-01".toList) ("cs.LG".toList), 2)] ∧
    mkFilename ("2026-04-01".toList) ("cs.LG".toList) = ("2026-04-01_cs_LG.json".toList) := by
  refine ⟨(C6_save_overwrite ([] : List (List Char × Nat))
    ("2026-04-01".toList) ("cs.LG".toList) 1 2).2.2.1, by decide⟩

theorem mem_addId_self (l : List (List Char)) (x : List Char) : x ∈ addId l x := by
  by_cases h : x ∈ l <;> simp [addId, h]

theorem mem_addId_of_mem {l : List (List Char)} {y : List Char} (x : List Char) (h : y ∈ l) :
    y ∈ addId l x := by
  by_cases hx : x ∈ l <;> simp [addId, hx, h]

theorem length_addId {l : List (List Char)} {x : List Char} (h : x ∉ l) :
    (addId l x).length = l.length + 1 := by
  simp [addId, h]

theorem processMention_skip (env : Env) (b : Bool) (st : BotState) (m : Mention)
    (h : m.mid ∈ st.processed) : processMention env b st m = st := by
  simp [processMention, h]

theorem processMention_fresh_cases (env : Env) (b : Bool) (st : BotState) (m : Mention)
    (h1 : m.mid ∉ st.processed) :
    processMention env b st m = mark b st m.mid ∨
    processMention env b st m = postReply env b st m := by
  unfold processMention
  rw [if_neg h1]
  by_cases h2 : m.visibility = ("public".toList) ∨ m.visibility = ("unlisted".toList)
  · rw [if_pos h2]
    by_cases h3 : strip_mentions (env.unescape (stripTags m.content)) = []
    · rw [if_pos h3]; exact Or.inl rfl
    · rw [if_neg h3]; exact Or.inr rfl
  · rw [if_neg h2]; exact Or.inl rfl

theorem processMention_cases (env : Env) (b : Bool) (st : BotState) (m : Mention) :
    processMention env b st m = st ∨
    processMention env b st m = mark b st m.mid ∨
    processMention env b st m = postReply env b st m := by
  by_cases h1 : m.mid ∈ st.processed
  · exact Or.inl (processMention_skip env b st m h1)
  · exact Or.inr (processMention_fresh_cases env b st m h1)

theorem mem_processed_processMention (env : Env) (b : Bool) (st : BotState) (m : Mention) :
    m.mid ∈ (processMention env b st m).processed := by
  by_cases h1 : m.mid ∈ st.processed
  · rw [processMention_skip env b st m h1]; exact h1
  · rcases processMention_fresh_cases env b st m h1 with h | h <;> rw [h]
    · exact mem_addId_self _ _
    · exact mem_addId_self _ _

theorem processed_mono (env : Env) (b : Bool) (st : BotState) (m : Mention)
    {x : List Char} (h : x ∈ st.processed) :
    x ∈ (processMention env b st m).processed := by
  rcases processMention_cases env b st m with hc | hc | hc <;> rw [hc]
  · exact h
  · exact mem_addId_of_mem _ h
  · exact mem_addId_of_mem _ h

theorem processMention_disk_eq (env : Env) (st : BotState) (m : Mention)
    (h : st.disk = st.processed) :
    (processMention env true st m).disk = (processMention env true st m).processed := by
  rcases processMention_cases env true st m with hc | hc | hc <;> rw [hc]
  · exact h
  · simp [mark]
  · simp [postReply]

theorem foldl_processed_mono (env : Env) (b : Bool) :
    ∀ (ms : List Mention) (st : BotState) (x : List Char), x ∈ st.processed →
      x ∈ (ms.foldl (processMention env b) st).processed := by
  intro ms
  induction ms with
  | nil => intro st x h; exact h
  | cons m rest ih =>
    intro st x h
    exact ih (processMention env b st m) x (processed_mono env b st m h)

theorem foldl_mem_all (env : Env) (b : Bool) :
    ∀ (ms : List Mention) (st : BotState), ∀ m ∈ ms,
      m.mid ∈ (ms.foldl (processMention env b) st).processed := by
  intro ms
  induction ms with
  | nil => intro st m h; cases h
  | cons m0 rest ih =>
    intro st m hm
    rcases List.mem_cons.mp hm with h | h
    · subst h
      exact foldl_processed_mono env b rest (processMention env b st m) m.mid
        (mem_processed_processMention env b st m)
    · exact ih (processMention env b st m0) m h

theorem foldl_disk_eq (env : Env) :
    ∀ (ms : List Mention) (st : BotState), st.disk = st.processed →
      (ms.foldl (processMention env true) st).disk =
        (ms.foldl (processMention env true) st).processed := by
  intro ms
  induction ms with
  | nil => intro st h; exact h
  | cons m rest ih =>
    intro st h
    exact ih (processMention env true st m) (processMention_disk_eq env st m h)

/-- Claim C1: a mention whose identifier is already recorded is skipped with
the whole poller state (processed set, persisted set, posts, logs) unchanged,
in both loop variants; and for a fresh, eligible, non-empty mention with
posting enabled, one pass posts exactly one reply and records exactly one new
identifier, after which replaying the same mention is a no-op — so two passes
produce exactly one posted reply and one processed-set entry. -/
theorem C1_dedup_idempotent (env : Env) (b : Bool) (st : BotState) (m : Mention)
    (h1 : m.mid ∉ st.processed)
    (h2 : m.visibility = ("public".toList) ∨ m.visibility = ("unlisted".toList))
    (h3 : strip_mentions (env.unescape (stripTags m.content)) ≠ [])
    (h4 : env.dryRun = false) :
    (∀ (st0 : BotState) (m0 : Mention), m0.mid ∈ st0.processed →
      processMention env b st0 m0 = st0) ∧
    (processMention env b st m).posts.length = st.posts.length + 1 ∧
    (processMention env b st m).processed.length = st.processed.length + 1 ∧
    processMention env b (processMention env b st m) m = processMention env b st m := by
  have hstep : processMention env b st m = postReply env b st m := by
    unfold processMention
    rw [if_neg h1, if_pos h2, if_neg h3]
  refine ⟨fun st0 m0 h => processMention_skip env b st0 m0 h, ?_, ?_, ?_⟩
  · rw [hstep]; simp [postReply, h4]
  · rw [hstep]; simp [postReply, length_addId h1]
  · exact processMention_skip env b _ m (mem_processed_processMention env b st m)

/-- Witness for C1 at the concrete fresh public mention `mW`. -/
theorem C1_witness :
    (processMention envW true st0W mW).posts.length = st0W.posts.length + 1 ∧
    (processMention envW true st0W mW).processed.length = st0W.processed.length + 1 ∧
    processMention envW true (processMention envW true st0W mW) mW =
      processMention envW true st0W mW := by
  have h := C1_dedup_idempotent envW true st0W mW (by decide) (Or.inl rfl) (by decide) rfl
  exact ⟨h.2.1, h.2.2.1, h.2.2.2⟩

/-- Claim C10: an eligible (public or unlisted) mention whose content reduces
to the empty string after markup removal, entity unescaping and mention
stripping is silently dropped: its identifier is recorded as processed while
nothing is posted and nothing is logged, in both loop variants. -/
theorem C10_empty_question_drop (env : Env) (b : Bool) (st : BotState) (m : Mention)
    (h2 : m.visibility = ("public".toList) ∨ m.visibility = ("unlisted".toList))
    (h3 : strip_mentions (env.unescape (stripTags m.content)) = []) :
    (processMention env b st m).posts = st.posts ∧
    (processMention env b st m).logs = st.logs ∧
    (processMention env b st m).processed = addId st.processed m.mid := by
  by_cases h1 : m.mid ∈ st.processed
  · rw [processMention_skip env b st m h1]
    exact ⟨rfl, rfl, by simp [addId, h1]⟩
  · have hstep : processMention env b st m = mark b st m.mid := by
      unfold processMention
      rw [if_neg h1, if_pos h2, if_pos h3]
    rw [hstep]
    exact ⟨rfl, rfl, rfl⟩

/-- Witness for C10 at the concrete mention `mEmptyW`, whose content is just
the bot's handle. -/
theorem C10_witness :
    (processMention envW true st0W mEmptyW).posts = st0W.posts ∧
    (processMention envW true st0W mEmptyW).logs = st0W.logs ∧
    (processMention envW true st0W mEmptyW).processed = addId st0W.processed mEmptyW.mid := by
  exact C10_empty_question_drop envW true st0W mEmptyW (Or.inl rfl) (by decide)

/-- Claim C9 — counterexample for the run-once variant.  `run_once` persists
the processed set only after the whole batch (`save_processed` sits after the
loop); so after the first mention of a batch has been handled — a reply was
posted — the persisted set is still empty, and a crash before the batch-end
save restarts the poller from that empty persisted set, which replies to the
same mention a second time.  This refutes the claim that in both variants a
crash between mentions cannot cause an already-replied mention to be
reprocessed. -/
theorem C9_counterexample :
    (processMention envW false st0W mW).posts.length = 1 ∧
    (processMention envW false st0W mW).disk = [] ∧
    (processMention envW false
        ⟨(processMention envW false st0W mW).disk,
         (processMention envW false st0W mW).disk, [], []⟩ mW).posts.length = 1 := by
  decide

/-- Claim C9 — amended.  In continuous mode (`run_reply_bot`) the identifier
set is persisted after every mention, so the persisted copy always equals the
in-memory set, every handled mention's identifier is on disk before the next
mention is handled, nothing durably recorded is ever lost, and a restart that
reloads the persisted set skips every already-recorded mention.  In run-once
mode the set is persisted only once, after the whole batch; after that final
save the persisted copy again holds every handled identifier (but a crash
before it loses the batch's additions, as the counterexample shows). -/
theorem C9_persistence (env : Env) (st : BotState) (ms : List Mention)
    (h : st.disk = st.processed) :
    (run_reply_bot_iter env st ms).disk = (run_reply_bot_iter env st ms).processed ∧
    (∀ m ∈ ms, m.mid ∈ (run_reply_bot_iter env st ms).disk) ∧
    (∀ x ∈ st.disk, x ∈ (run_reply_bot_iter env st ms).disk) ∧
    (∀ (st2 : BotState) (m : Mention), m.mid ∈ st2.processed →
      processMention env true st2 m = st2) ∧
    (run_once_batch env st ms).disk = (run_once_batch env st ms).processed ∧
    (∀ m ∈ ms, m.mid ∈ (run_once_batch env st ms).disk) := by
  have hdisk : (run_reply_bot_iter env st ms).disk = (run_reply_bot_iter env st ms).processed :=
    foldl_disk_eq env ms st h
  refine ⟨hdisk, ?_, ?_, ?_, ?_, ?_⟩
  · intro m hm
    rw [hdisk]
    exact foldl_mem_all env true ms st m hm
  · intro x hx
    rw [hdisk]
    exact foldl_processed_mono env true ms st x (h ▸ hx)
  · intro st2 m hm
    exact processMention_skip env true st2 m hm
  · rfl
  · intro m hm
    exact foldl_mem_all env false ms st m hm

/-- Witness for C9 at a concrete one-mention batch from a fresh state. -/
theorem C9_witness :
    (run_reply_bot_iter envW st0W [mW]).disk = (run_reply_bot_iter envW st0W [mW]).processed ∧
    mW.mid ∈ (run_reply_bot_iter envW st0W [mW]).disk ∧
    (run_once_batch envW st0W [mW]).disk = (run_once_batch envW st0W [mW]).processed := by
  have h := C9_persistence envW st0W [mW] rfl
  exact ⟨h.1, h.2.1 mW (List.mem_singleton.mpr rfl), h.2.2.2.2.1⟩

theorem lowerRun_le (l : List Char) : lowerRun l ≤ l.length := by
  induction l with
  | nil => simp [lowerRun]
  | cons c r ih =>
    by_cases h : isLowerAZ c
    · simp only [lowerRun, if_pos h, List.length_cons]
      omega
    · simp only [lowerRun, if_neg h, List.length_cons]
      omega

theorem lowerRun_take_lower :
    ∀ l : List Char, ∀ c ∈ l.take (lowerRun l), isLowerAZ c = true := by
  intro l
  induction l with
  | nil => intro c hc; simp [lowerRun] at hc
  | cons a r ih =>
    intro c hc
    by_cases h : isLowerAZ a
    · simp only [lowerRun, if_pos h, List.take_succ_cons] at hc
      rcases List.mem_cons.mp hc with h1 | h1
      · subst h1; exact h
      · exact ih c h1
    · simp only [lowerRun, if_neg h, List.take_zero] at hc
      cases hc

theorem matchCatAt_spec {pw : Bool} {l m : List Char} (h : matchCatAt pw l = some m) :
    (∃ post, l = m ++ post) ∧ CatShapeP m := by
  unfold matchCatAt at h
  by_cases hpw : pw
  · rw [if_pos hpw] at h; cases h
  · rw [if_neg hpw] at h
    by_cases hr : 2 ≤ lowerRun l ∧ lowerRun l ≤ 4
    · rw [if_pos hr] at h
      rcases hd : l.drop (lowerRun l) with _ | ⟨c0, tl⟩
      · rw [hd] at h; cases h
      · rcases tl with _ | ⟨u1, tl2⟩
        · rw [hd] at h; cases h
        · rcases tl2 with _ | ⟨u2, rest⟩
          · rw [hd] at h; cases h
          · rw [hd] at h
            have h2 : (if (c0 == '.' && isUpperAZ u1 && isUpperAZ u2 &&
                  notWordAhead rest) = true
                then some (l.take (lowerRun l) ++ [c0, u1, u2]) else none) = some m := h
            by_cases hc : (c0 == '.' && isUpperAZ u1 && isUpperAZ u2 &&
                notWordAhead rest) = true
            · rw [if_pos hc] at h2
              injection h2 with h2
              subst h2
              have hc0 : c0 = '.' := by
                have := hc
                simp only [Bool.and_eq_true, beq_iff_eq] at this
                exact this.1.1.1
              have hu1 : isUpperAZ u1 = true := by
                have := hc
                simp only [Bool.and_eq_true] at this
                exact this.1.1.2
              have hu2 : isUpperAZ u2 = true := by
                have := hc
                simp only [Bool.and_eq_true] at this
                exact this.1.2
              have hlen : (l.take (lowerRun l)).length = lowerRun l := by
                rw [List.length_take]
                exact Nat.min_eq_left (lowerRun_le l)
              constructor
              · refine ⟨rest, ?_⟩
                conv_lhs => rw [← List.take_append_drop (lowerRun l) l]
                rw [hd]
                simp
              · refine ⟨l.take (lowerRun l), u1, u2, by rw [hc0], ?_, ?_, ?_, hu1, hu2⟩
                · rw [hlen]; exact hr.1
                · rw [hlen]; exact hr.2
                · exact lowerRun_take_lower l
            · rw [if_neg hc] at h2; cases h2
    · rw [if_neg hr] at h; cases h

theorem searchCat_spec :
    ∀ (l : List Char) (pw : Bool) (m : List Char), searchCat pw l = some m →
      (∃ pre post, l = pre ++ m ++ post) ∧ CatShapeP m := by
  intro l
  induction l with
  | nil => intro pw m h; cases h
  | cons c r ih =>
    intro pw m h
    unfold searchCat at h
    rcases hm : matchCatAt pw (c :: r) with _ | m0
    · rw [hm] at h
      rcases ih (isWordChar c) m h with ⟨⟨pre, post, hsplit⟩, hshape⟩
      exact ⟨⟨c :: pre, post, by rw [hsplit]; rfl⟩, hshape⟩
    · rw [hm] at h
      injection h with h
      subst h
      rcases matchCatAt_spec hm with ⟨⟨post, hsplit⟩, hshape⟩
      exact ⟨⟨[], post, by simpa using hsplit⟩, hshape⟩

theorem extract_category_spec (t : List Char) :
    extract_category_from_message t = DEFAULT_CATEGORY ∨
    ((∃ pre post, t = pre ++ extract_category_from_message t ++ post) ∧
      CatShapeP (extract_category_from_message t)) := by
  unfold extract_category_from_message
  rcases hs : searchCat false t with _ | m
  · exact Or.inl rfl
  · exact Or.inr (searchCat_spec t false m hs)

theorem mention_reply_snd (env : Env) (content question : List Char)
    (h : is_help_request question = false) :
    (mention_reply env content question).2 = extract_category_from_message content := by
  simp [mention_reply, h]

/-- Claim C7 — counterexample.  `run_reply_bot` and `run_once` pass `content`
— the markup-stripped, unescaped text *before* mention stripping — to
`extract_category_from_message`, not the residual question.  For the mention
content `"@m@cs.LG what about math.CO"` (entity-free, so unescape is the
identity) the residual text is `"what about math.CO"`, which contains no help
phrase and whose only category pattern is `math.CO`; yet the poller logs and
retrieves category `cs.LG`, found inside the stripped-away handle. -/
theorem C7_counterexample :
    strip_mentions (stripTags mHijackW.content) = ("what about math.CO".toList) ∧
    is_help_request ("what about math.CO".toList) = false ∧
    extract_category_from_message ("what about math.CO".toList) = ("math.CO".toList) ∧
    (processMention envW true st0W mHijackW).logs = [("cs.LG".toList)] ∧
    ("cs.LG".toList) ≠ ("math.CO".toList) := by
  decide

/-- Claim C7 — amended.  For a fresh, eligible mention whose residual
(markup-stripped, unescaped, mention-stripped) text is non-empty and contains
no help phrase, the category used for retrieval and logging is
`extract_category_from_message` applied to the content *before* mention
stripping; that category is either the configured default or a substring of
that content shaped `<2–4 lowercase letters>.<2 uppercase letters>`.  A
mention containing `math.CO` still resolves to `math.CO` when no
category-shaped token occurs earlier in the content (witness). -/
theorem C7_category_from_content (env : Env) (b : Bool) (st : BotState) (m : Mention)
    (h1 : m.mid ∉ st.processed)
    (h2 : m.visibility = ("public".toList) ∨ m.visibility = ("unlisted".toList))
    (h3 : strip_mentions (env.unescape (stripTags m.content)) ≠ [])
    (h4 : is_help_request (strip_mentions (env.unescape (stripTags m.content))) = false) :
    (processMention env b st m).logs =
      st.logs ++ [extract_category_from_message (env.unescape (stripTags m.content))] ∧
    (extract_category_from_message (env.unescape (stripTags m.content)) = DEFAULT_CATEGORY ∨
      ((∃ pre post, env.unescape (stripTags m.content) =
          pre ++ extract_category_from_message (env.unescape (stripTags m.content)) ++ post) ∧
        CatShapeP (extract_category_from_message (env.unescape (stripTags m.content))))) := by
  have hstep : processMention env b st m = postReply env b st m := by
    unfold processMention
    rw [if_neg h1, if_pos h2, if_neg h3]
  constructor
  · rw [hstep]
    simp only [postReply]
    rw [mention_reply_snd env _ _ h4]
  · exact extract_category_spec (env.unescape (stripTags m.content))

/-- Witness for C7 at the concrete mention `mCatW` ("any news on math.CO"):
the poller resolves and logs `math.CO` even though the default is `cs.LG`. -/
theorem C7_witness :
    (processMention envW true st0W mCatW).logs =
      st0W.logs ++ [extract_category_from_message (envW.unescape (stripTags mCatW.content))] ∧
    extract_category_from_message (envW.unescape (stripTags mCatW.content)) =
      ("math.CO".toList) ∧
    ("math.CO".toList) ≠ DEFAULT_CATEGORY := by
  have h := C7_category_from_content envW true st0W mCatW (by decide) (Or.inl rfl)
    (by decide) (by decide)
  exact ⟨h.1, by decide, by decide⟩

end RagToXiv
